import Mathlib

/-
Verification of the lmcache redis connector
(src/lmcache/v1/storage_backend/connector/redis_connector.py).

The connector talks to a key-value store (redis) that maps string keys to
byte strings.  We embed byte strings as `List Nat`, the keyspace as an
association list, and each connector operation as a pure function from the
store to its result together with the ordered list of write commands it
issues (reads have no effect on the store, so only writes are traced).

External collaborators that are not part of the repository's source
(the metadata codec `RemoteMetadata`, the allocator of the local CPU
backend, the priority-queue job executor, and the store's key-to-shard
hash) are modelled from the spec; each such definition says so in its doc
comment.
-/

namespace LMCacheRedis

/-- Modelled from the spec: the metadata envelope, a "small fixed descriptor
\x7blength, shape, dtype, format\x7d" (spec section 3).  `lmcache.v1.protocol`
is not part of this repository's source.  Shape is a list of dimensions;
dtype and format are opaque codes. -/
structure RemoteMetadata where
  length : Nat
  shape : List Nat
  dtype : Nat
  fmt : Nat
  deriving DecidableEq, Repr

/-- Modelled from the spec: the external metadata codec exposing
`serialize()` over \x7blength, shape, dtype, format\x7d (spec section 6).
A simple injective encoding into a byte-like list. -/
def RemoteMetadata.serialize (m : RemoteMetadata) : List Nat :=
  m.length :: m.dtype :: m.fmt :: m.shape.length :: m.shape

/-- Modelled from the spec: the external metadata codec's `deserialize(bytes)`
(spec section 6); malformed metadata bytes raise a serialization error
(spec section 7), embedded as `Except.error`. -/
def RemoteMetadata.deserialize (bs : List Nat) : Except Unit RemoteMetadata :=
  match bs with
  | len :: dt :: f :: n :: rest =>
      if rest.length = n then .ok ⟨len, rest, dt, f⟩ else .error ()
  | _ => .error ()

theorem RemoteMetadata.deserialize_serialize (m : RemoteMetadata) :
    RemoteMetadata.deserialize m.serialize = .ok m := by
  simp [RemoteMetadata.serialize, RemoteMetadata.deserialize]

/-- Modelled from the spec: a caller-owned `MemoryObj` exposing a raw byte
view (`byte_array`, here `data`) plus shape / dtype / format accessors
(spec sections 3 and 6). -/
structure MemObj where
  data : List Nat
  shape : List Nat
  dtype : Nat
  fmt : Nat
  deriving DecidableEq, Repr

/-- Modelled from the spec: the local allocator
`allocate(shape, dtype, format) -> object|null` (spec section 6).  It either
returns the raw buffer for a fresh object or fails with `none`. -/
def Alloc : Type := List Nat → Nat → Nat → Option (List Nat)

/-- The redis keyspace: an association list from string keys to byte
strings; the most recent binding of a key comes first. -/
def Store : Type := List (String × List Nat)

/-- Store lookup (redis GET / one lane of MGET): first binding wins. -/
def Store.lookup (st : Store) (k : String) : Option (List Nat) :=
  match st with
  | [] => none
  | (k2, v) :: rest => if k2 = k then some v else Store.lookup rest k

/-- A write command issued against the store; puts issue `set`, the
sentinel read-repair path issues `del`. -/
inductive Cmd where
  | set (k : String) (v : List Nat)
  | del (k : String)
  deriving DecidableEq, Repr

/-- Apply one write command to the store. -/
def applyCmd (st : Store) (c : Cmd) : Store :=
  match c with
  | .set k v => (k, v) :: st
  | .del k => st.filter (fun p => p.1 ≠ k)

/-- Apply a trace of write commands in order. -/
def applyCmds (st : Store) (cs : List Cmd) : Store :=
  cs.foldl applyCmd st

/-- Redis MGET over a fixed store: one lookup per requested key, results
positionally aligned with the key list. -/
def mget (st : Store) (ks : List String) : List (Option (List Nat)) :=
  ks.map st.lookup

/-- The slice assignment `view[: metadata.length] = kv_bytes` of the source:
python takes the slice of the first `min n (buf.length)` buffer bytes and
requires the payload to have exactly that length, else it raises (which the
source catches where a `try` block surrounds the copy). -/
def copyInto (buf : List Nat) (n : Nat) (kv : List Nat) : Option (List Nat) :=
  let sliceLen := min n buf.length
  if kv.length = sliceLen then some (kv ++ buf.drop sliceLen) else none

/-- The metadata of a memory object as built by every put path:
`RemoteMetadata(len(kv_bytes), kv_shape, kv_dtype, memory_format)`. -/
def metaOf (obj : MemObj) : RemoteMetadata :=
  ⟨obj.data.length, obj.shape, obj.dtype, obj.fmt⟩

namespace RedisConnector

/-- `RedisConnector._get_keys`: derive the metadata and payload storage keys
of a cache key (its canonical string form). -/
def getKeys (key : String) : String × String :=
  (key ++ ":metadata", key ++ ":kv_bytes")

/-- `RedisConnector._exists`: probe the metadata key only. -/
def existsQ (st : Store) (key : String) : Bool :=
  (st.lookup (getKeys key).1).isSome

/-- Shared per-pair body of the batched get loops
(`RedisConnector._batched_get_non_blocking` lines 333-379 and
`RedisClusterConnector._batched_get_non_blocking` lines 897-947): given the
positionally fetched metadata and payload bytes, deserialize, allocate,
copy; every failure is caught inside the loop's `try` and yields no object. -/
def processPair (alloc : Alloc) (mdb : Option (List Nat))
    (kvb : Option (List Nat)) : Option MemObj :=
  match mdb with
  | none => none
  | some mbytes =>
    match RemoteMetadata.deserialize mbytes with
    | .error _ => none
    | .ok md =>
      match alloc md.shape md.dtype md.fmt with
      | none => none
      | some buf =>
        match kvb with
        | none => none
        | some kv =>
          match copyInto buf md.length kv with
          | none => none
          | some filled => some ⟨filled, md.shape, md.dtype, md.fmt⟩

/-- `RedisConnector._get`: MGET both keys; absent metadata yields `none`;
metadata deserialization is performed outside any `try` block, so its
failure propagates (`Except.error`); allocation failure and absent payload
yield `none`; the byte copy is inside a `try`, so its failure yields `none`.
The second component is the trace of issued writes (a get issues none). -/
def getOp (alloc : Alloc) (st : Store) (key : String) :
    Except Unit (Option MemObj × List Cmd) :=
  let ks := getKeys key
  let results := mget st [ks.1, ks.2]
  let mdb := results.getD 0 none
  let kvb := results.getD 1 none
  match mdb with
  | none => .ok (none, [])
  | some mbytes =>
    match RemoteMetadata.deserialize mbytes with
    | .error e => .error e
    | .ok md =>
      match alloc md.shape md.dtype md.fmt with
      | none => .ok (none, [])
      | some buf =>
        match kvb with
        | none => .ok (none, [])
        | some kv =>
          match copyInto buf md.length kv with
          | none => .ok (none, [])
          | some filled => .ok (some ⟨filled, md.shape, md.dtype, md.fmt⟩, [])

/-- `RedisConnector._put`: pipeline setting the payload key first, then the
metadata key ("kv bytes needs to be set first to avoid race condition"). -/
def putCmds (key : String) (obj : MemObj) : List Cmd :=
  let ks := getKeys key
  [Cmd.set ks.2 obj.data, Cmd.set ks.1 (metaOf obj).serialize]

/-- `RedisConnector._batched_put`: one pipeline over `zip(keys, memory_objs,
strict=False)`, per pair setting the payload key then the metadata key. -/
def batchedPutCmds (keys : List String) (objs : List MemObj) : List Cmd :=
  (keys.zip objs).flatMap (fun p =>
    let ks := getKeys p.1
    [Cmd.set ks.2 p.2.data, Cmd.set ks.1 (metaOf p.2).serialize])

end RedisConnector

namespace RedisSentinelConnector

/-- `RedisSentinelConnector`'s metadata storage key: the canonical key
string with `"metadata"` appended directly (no separator, source lines
462, 469, 496, 528). -/
def metaKey (key : String) : String := key ++ "metadata"

/-- `RedisSentinelConnector`'s payload storage key: the canonical key
string with `"kv_bytes"` appended directly (source lines 487, 529). -/
def kvKey (key : String) : String := key ++ "kv_bytes"

/-- `RedisSentinelConnector.exists`: probe the metadata key on the replica.
Replication is not modelled; the replica reads the same store state. -/
def existsQ (st : Store) (key : String) : Bool :=
  (st.lookup (metaKey key)).isSome

/-- `RedisSentinelConnector.put`: two sequential SETs, the metadata key
first and the payload key second (source lines 528-529). -/
def putCmds (key : String) (obj : MemObj) : List Cmd :=
  [Cmd.set (metaKey key) (metaOf obj).serialize,
   Cmd.set (kvKey key) obj.data]

/-- `RedisSentinelConnector.get`: read metadata then payload with separate
GETs; absent metadata or allocation failure yields `none`; when the payload
is absent the connector DELETEs the metadata key on the master before
returning `none` (source line 496); deserialization and the byte copy are
outside any `try`, so their failures propagate. -/
def getOp (alloc : Alloc) (st : Store) (key : String) :
    Except Unit (Option MemObj × List Cmd) :=
  match st.lookup (metaKey key) with
  | none => .ok (none, [])
  | some mbytes =>
    match RemoteMetadata.deserialize mbytes with
    | .error e => .error e
    | .ok md =>
      match alloc md.shape md.dtype md.fmt with
      | none => .ok (none, [])
      | some buf =>
        match st.lookup (kvKey key) with
        | none => .ok (none, [Cmd.del (metaKey key)])
        | some kv =>
          match copyInto buf md.length kv with
          | none => .error ()
          | some filled => .ok (some ⟨filled, md.shape, md.dtype, md.fmt⟩, [])

end RedisSentinelConnector

namespace RedisClusterConnector

/-- `RedisClusterConnector._get_keys_with_hash_tag`: wrap the canonical key
string in braces so both derived keys carry the hash tag `{key}`. -/
def getKeysWithHashTag (key : String) : String × String :=
  ("\x7b" ++ key ++ "\x7d:metadata", "\x7b" ++ key ++ "\x7d:kv_bytes")

/-- `RedisClusterConnector._exists`: probe the tagged metadata key only. -/
def existsQ (st : Store) (key : String) : Bool :=
  (st.lookup (getKeysWithHashTag key).1).isSome

/-- `RedisClusterConnector._get`: same structure as the standalone `_get`,
over the hash-tagged keys (deserialization outside the `try`, byte copy
inside it). -/
def getOp (alloc : Alloc) (st : Store) (key : String) :
    Except Unit (Option MemObj × List Cmd) :=
  let ks := getKeysWithHashTag key
  let results := mget st [ks.1, ks.2]
  let mdb := results.getD 0 none
  let kvb := results.getD 1 none
  match mdb with
  | none => .ok (none, [])
  | some mbytes =>
    match RemoteMetadata.deserialize mbytes with
    | .error e => .error e
    | .ok md =>
      match alloc md.shape md.dtype md.fmt with
      | none => .ok (none, [])
      | some buf =>
        match kvb with
        | none => .ok (none, [])
        | some kv =>
          match copyInto buf md.length kv with
          | none => .ok (none, [])
          | some filled => .ok (some ⟨filled, md.shape, md.dtype, md.fmt⟩, [])

/-- `RedisClusterConnector._put`: pipeline setting the tagged payload key
first, then the tagged metadata key (source lines 735-736). -/
def putCmds (key : String) (obj : MemObj) : List Cmd :=
  let ks := getKeysWithHashTag key
  [Cmd.set ks.2 obj.data, Cmd.set ks.1 (metaOf obj).serialize]

end RedisClusterConnector

/-- Loop body of `RedisConnector._batched_get_non_blocking` for one chunk:
build the flat list of (metadata, payload) keys, fetch them in one MGET,
then walk the chunk positionally, reading result `2*i` and `2*i+1` for the
i-th key and appending each successfully decoded object. -/
def RedisConnector.processChunk (alloc : Alloc) (st : Store)
    (chunk : List String) : List MemObj :=
  let allKeys := chunk.flatMap (fun k =>
    [(RedisConnector.getKeys k).1, (RedisConnector.getKeys k).2])
  let res := mget st allKeys
  (List.range chunk.length).filterMap (fun i =>
    RedisConnector.processPair alloc (res.getD (2 * i) none)
      (res.getD (2 * i + 1) none))

/-- `RedisConnector._batched_get_non_blocking`: empty key list returns `[]`
at once; otherwise the key list is processed in sequential chunks of
`chunkSize` keys (`for i in range(0, len(keys), chunk_size)`), concatenating
the per-chunk results.  A zero step would raise in the source
(`range` with step 0), so that branch returns nothing. -/
def RedisConnector.batchedGet (alloc : Alloc) (chunkSize : Nat) (st : Store)
    (keys : List String) : List MemObj :=
  if keys = [] then []
  else if _h : 0 < chunkSize then
    RedisConnector.processChunk alloc st (keys.take chunkSize) ++
      RedisConnector.batchedGet alloc chunkSize st (keys.drop chunkSize)
  else []
termination_by keys.length
decreasing_by
  have hk : 0 < keys.length := by
    cases keys with
    | nil => simp_all
    | cons a l => simp
  simp only [List.length_drop]
  omega

/-- `RedisClusterConnector._group_keys_by_slot`: map each key through the
store's slot function and collect `(original_index, key)` pairs per slot,
groups ordered by first occurrence and pairs in input order (python
`defaultdict(list)` insertion order). -/
def RedisClusterConnector.groupBySlot (slotFn : String → Nat)
    (ks : List String) : List (Nat × List (Nat × String)) :=
  ks.enum.foldl (fun gs p =>
    let s := slotFn p.2
    if gs.any (fun g => g.1 = s) then
      gs.map (fun g => if g.1 = s then (g.1, g.2 ++ [p]) else g)
    else gs ++ [(s, [p])]) []

/-- Per-slot-group body of `RedisClusterConnector._batched_get_non_blocking`
(source lines 882-947): rebuild the tagged key pair of every original index
in the group, fetch them all in one MGET, and process positionally,
producing `(original_index, optional object)` assignments. -/
def RedisClusterConnector.processSlotGroup (alloc : Alloc) (st : Store)
    (keys : List String) (kl : List (Nat × String)) :
    List (Nat × Option MemObj) :=
  let slotKeys := kl.flatMap (fun p =>
    [(RedisClusterConnector.getKeysWithHashTag (keys.getD p.1 "")).1,
     (RedisClusterConnector.getKeysWithHashTag (keys.getD p.1 "")).2])
  let res := mget st slotKeys
  (List.range kl.length).map (fun i =>
    ((kl.getD i (0, "")).1,
      RedisConnector.processPair alloc (res.getD (2 * i) none)
        (res.getD (2 * i + 1) none)))

/-- `RedisClusterConnector._batched_get_non_blocking`: group the tagged
metadata keys by slot, process each group (recording results in the
index-keyed dictionary `results_by_index`), then re-walk the original index
order keeping the entries that are present and not `None`. -/
def RedisClusterConnector.batchedGet (alloc : Alloc) (slotFn : String → Nat)
    (st : Store) (keys : List String) : List MemObj :=
  if keys = [] then []
  else
    let metadataKeys := keys.map (fun k =>
      (RedisClusterConnector.getKeysWithHashTag k).1)
    let groups := RedisClusterConnector.groupBySlot slotFn metadataKeys
    let rbi : Nat → Option (Option MemObj) :=
      groups.foldl (fun acc g =>
        (RedisClusterConnector.processSlotGroup alloc st keys g.2).foldl
          (fun a p => fun j => if j = p.1 then some p.2 else a j) acc)
        (fun _ => none)
    (List.range keys.length).filterMap (fun i =>
      match rbi i with
      | some (some o) => some o
      | _ => none)

/-- The `Priorities` IntEnum of the source: `auto()` numbers the members
1, 2, 3, 4 in declaration order. -/
inductive Priorities where
  | PEEK
  | PREFETCH
  | GET
  | PUT
  deriving DecidableEq, Repr

/-- Numeric value of each `Priorities` member (IntEnum `auto()`). -/
def Priorities.val : Priorities → Nat
  | .PEEK => 1
  | .PREFETCH => 2
  | .GET => 3
  | .PUT => 4

/-- The facade operations a connector dispatches through its executor. -/
inductive FacadeOp where
  | existsOp
  | batchedAsyncContains
  | batchedGetNonBlocking
  | getOne
  | putOne
  | batchedPut
  deriving DecidableEq, Repr

/-- The `priority=` argument each `RedisConnector` facade method passes to
`executor.submit_job` (source lines 124-127, 227-230, 262-270, 290-302,
383-393). -/
def RedisConnector.submitPriority : FacadeOp → Priorities
  | .existsOp => .PEEK
  | .batchedAsyncContains => .PEEK
  | .batchedGetNonBlocking => .PREFETCH
  | .getOne => .GET
  | .putOne => .PUT
  | .batchedPut => .PUT

/-- The `priority=` argument each `RedisClusterConnector` facade method
passes to `executor.submit_job` (source lines 641-644, 742-745, 803-811,
838-850, 957-967). -/
def RedisClusterConnector.submitPriority : FacadeOp → Priorities
  | .existsOp => .PEEK
  | .batchedAsyncContains => .PEEK
  | .batchedGetNonBlocking => .PREFETCH
  | .getOne => .GET
  | .putOne => .PUT
  | .batchedPut => .PUT

/-- A queued executor job: its priority value and its submission sequence
number. -/
structure Job where
  prio : Nat
  seq : Nat
  deriving DecidableEq, Repr

/-- Modelled from the spec: the priority-queue executor dequeues by urgency
(lower `Priorities` value first) and breaks ties by submission order
(spec section 4.1); `lmcache...job_executor.pq_executor.AsyncPQExecutor` is
not part of this repository's source.  `jobBefore a b` holds when the queue
pops `a` no later than `b`. -/
def jobBefore (a b : Job) : Bool :=
  if a.prio = b.prio then decide (a.seq ≤ b.seq) else decide (a.prio < b.prio)

/-- Modelled from the spec: the executor's consumer pops the queued
not-yet-started job that is minimal in (priority, submission order). -/
def popNext (q : List Job) : Option Job :=
  match q with
  | [] => none
  | j :: rest =>
    match popNext rest with
    | none => some j
    | some j2 => if jobBefore j j2 then some j else some j2

/-- Modelled from the spec: the store's deterministic key-to-shard hash
recognizes a brace-delimited routing tag and hashes the content between the
first brace pair instead of the whole key (spec section 4.2 and glossary);
the cluster client's `keyslot` is not part of this repository's source.
A key with no complete brace pair is hashed whole; the hash itself stays
abstract. -/
def hashInput (s : String) : String :=
  match s.data.dropWhile (fun c => c ≠ '{') with
  | [] => s
  | _ :: rest =>
    if rest.any (fun c => c = '}') then ⟨rest.takeWhile (fun c => c ≠ '}')⟩
    else s

/-- Modelled from the spec: the shard of a storage key under an abstract
deterministic hash `h` of the routing-relevant part of the key. -/
def shardOf (h : String → Nat) (s : String) : Nat := h (hashInput s)

/-! Helper lemmas about strings and the store. -/

theorem append_left_cancel {s a b : String} (h : s ++ a = s ++ b) : a = b := by
  cases a; cases b
  have h2 := congrArg String.data h
  simp [String.data_append] at h2
  simp [h2]

theorem append_right_ne {s : String} {a b : String} (h : a ≠ b) :
    s ++ a ≠ s ++ b :=
  fun he => h (append_left_cancel he)

theorem std_keys_ne (k : String) : k ++ ":metadata" ≠ k ++ ":kv_bytes" :=
  append_right_ne (by decide)

theorem sent_keys_ne (k : String) : k ++ "metadata" ≠ k ++ "kv_bytes" :=
  append_right_ne (by decide)

theorem cluster_keys_ne (k : String) :
    "\x7b" ++ k ++ "\x7d:metadata" ≠ "\x7b" ++ k ++ "\x7d:kv_bytes" :=
  append_right_ne (by decide)

theorem Store.lookup_cons_self (st : Store) (k : String) (v : List Nat) :
    Store.lookup ((k, v) :: st) k = some v := by
  simp [Store.lookup]

theorem Store.lookup_cons_ne (st : Store) {k2 k : String} (v : List Nat)
    (h : k2 ≠ k) : Store.lookup ((k2, v) :: st) k = Store.lookup st k := by
  simp [Store.lookup, h]

theorem Store.lookup_del_self (st : Store) (k : String) :
    Store.lookup (st.filter (fun p => p.1 ≠ k)) k = none := by
  induction st with
  | nil => rfl
  | cons p rest ih =>
    simp only [ne_eq, decide_not] at ih ⊢
    by_cases h : p.1 = k <;>
      simp [List.filter_cons, Store.lookup, h, ih]

/-! Helper lemmas about the executor order. -/

theorem jobBefore_iff (a b : Job) : jobBefore a b = true ↔
    (a.prio < b.prio ∨ (a.prio = b.prio ∧ a.seq ≤ b.seq)) := by
  unfold jobBefore
  by_cases h : a.prio = b.prio <;> simp [h]

theorem jobBefore_refl (a : Job) : jobBefore a a = true := by
  simp [jobBefore]

theorem jobBefore_total (a b : Job) :
    jobBefore a b = true ∨ jobBefore b a = true := by
  rw [jobBefore_iff, jobBefore_iff]; omega

theorem jobBefore_trans {a b c : Job} (h1 : jobBefore a b = true)
    (h2 : jobBefore b c = true) : jobBefore a c = true := by
  rw [jobBefore_iff] at h1 h2 ⊢; omega

theorem popNext_cons_isSome (b : Job) (bs : List Job) :
    (popNext (b :: bs)).isSome = true := by
  rw [popNext]
  rcases popNext bs with _ | x
  · rfl
  · by_cases h : jobBefore b x = true <;> simp [h]

theorem popNext_min : ∀ (q : List Job) (j : Job), popNext q = some j →
    ∀ j2 ∈ q, jobBefore j j2 = true := by
  intro q
  induction q with
  | nil => intro j hj; simp [popNext] at hj
  | cons a rest ih =>
    intro j hj j2 hj2
    rw [popNext] at hj
    rcases hr : popNext rest with _ | jm
    · rw [hr] at hj
      simp at hj
      rcases List.mem_cons.mp hj2 with h | h
      · rw [← hj, h]; exact jobBefore_refl _
      · exfalso
        cases rest with
        | nil => simp at h
        | cons b bs =>
          have hs := popNext_cons_isSome b bs
          rw [hr] at hs
          simp at hs
    · rw [hr] at hj
      by_cases hab : jobBefore a jm = true
      · simp [hab] at hj
        rcases List.mem_cons.mp hj2 with h | h
        · rw [← hj, h]; exact jobBefore_refl _
        · rw [← hj]; exact jobBefore_trans hab (ih jm hr j2 h)
      · simp [hab] at hj
        rcases List.mem_cons.mp hj2 with h | h
        · rw [← hj, h]
          rcases jobBefore_total a jm with h2 | h2
          · exact absurd h2 hab
          · exact h2
        · rw [← hj]; exact ih jm hr j2 h

/-! Helper lemmas about zipping and flat pair lists. -/

theorem zip_take_min {α β : Type} (keys : List α) (objs : List β) :
    keys.zip objs =
      (keys.take (min keys.length objs.length)).zip
        (objs.take (min keys.length objs.length)) := by
  induction keys generalizing objs with
  | nil => simp
  | cons a as ih =>
    cases objs with
    | nil => simp
    | cons b bs =>
      simp [Nat.succ_min_succ, List.zip_cons_cons]
      exact ih bs

theorem length_flatMap_pairs {α β : Type} (l : List α) (f g : α → β) :
    (l.flatMap (fun a => [f a, g a])).length = 2 * l.length := by
  induction l with
  | nil => rfl
  | cons a as ih => simp [List.flatMap_cons, ih]; omega

/-! Helper lemmas for the hash-tag routing of claim C8. -/

theorem takeWhile_append_stop {p : Char → Bool} (hm : p '}' = false)
    (mid tail : List Char) :
    (mid ++ '}' :: tail).takeWhile p = mid.takeWhile p := by
  induction mid with
  | nil => simp [List.takeWhile_cons, hm]
  | cons c cs ih => by_cases hc : p c <;> simp [List.takeWhile_cons, hc, ih]

theorem hashInput_tagged (mid tail : List Char) :
    hashInput ⟨'{' :: (mid ++ '}' :: tail)⟩ =
      ⟨mid.takeWhile (fun c => decide (c ≠ '}'))⟩ := by
  unfold hashInput
  simp [List.dropWhile_cons, List.any_append, takeWhile_append_stop]

/-! Helper lemmas for positional pair consumption: the batched gets fetch
`[metadata_key, kv_key]` pairs flattened into a single MGET and read result
`2*i` and `2*i+1` for the i-th key. -/

theorem filterMap_pairs_positional {α β : Type} (f g : α → Option (List Nat))
    (P : Option (List Nat) → Option (List Nat) → Option β) :
    ∀ l : List α,
      (List.range l.length).filterMap (fun i =>
        P ((l.flatMap (fun a => [f a, g a])).getD (2 * i) none)
          ((l.flatMap (fun a => [f a, g a])).getD (2 * i + 1) none)) =
      l.filterMap (fun a => P (f a) (g a)) := by
  intro l
  induction l with
  | nil => simp
  | cons a as ih =>
    have hres : (a :: as).flatMap (fun x => [f x, g x]) =
        f a :: g a :: as.flatMap (fun x => [f x, g x]) := by
      simp [List.flatMap_cons]
    have hshift : ∀ i : Nat,
        P (((a :: as).flatMap (fun x => [f x, g x])).getD (2 * (i + 1)) none)
          (((a :: as).flatMap (fun x => [f x, g x])).getD (2 * (i + 1) + 1)
            none)
        = P ((as.flatMap (fun x => [f x, g x])).getD (2 * i) none)
            ((as.flatMap (fun x => [f x, g x])).getD (2 * i + 1) none) := by
      intro i
      have h1 : 2 * (i + 1) = 2 * i + 1 + 1 := by omega
      rw [hres, h1]
      simp [List.getD_cons_succ]
    rw [List.length_cons, List.range_succ_eq_map, List.filterMap_cons,
      List.filterMap_map]
    have hcongr : ((fun i =>
        P (((a :: as).flatMap (fun x => [f x, g x])).getD (2 * i) none)
          (((a :: as).flatMap (fun x => [f x, g x])).getD (2 * i + 1) none)) ∘
        Nat.succ) = (fun i =>
        P ((as.flatMap (fun x => [f x, g x])).getD (2 * i) none)
          ((as.flatMap (fun x => [f x, g x])).getD (2 * i + 1) none)) := by
      funext i
      simp only [Function.comp_apply, Nat.succ_eq_add_one]
      exact hshift i
    rw [hcongr, ih]
    have h0 : P (((a :: as).flatMap (fun x => [f x, g x])).getD (2 * 0) none)
        (((a :: as).flatMap (fun x => [f x, g x])).getD (2 * 0 + 1) none) =
        P (f a) (g a) := by
      rw [hres]
      rfl
    rw [h0, List.filterMap_cons]

theorem map_pairs_positional {α γ : Type} (f g : α → Option (List Nat))
    (Q : α → Option (List Nat) → Option (List Nat) → γ) (d : α) :
    ∀ l : List α,
      (List.range l.length).map (fun i =>
        Q (l.getD i d) ((l.flatMap (fun a => [f a, g a])).getD (2 * i) none)
          ((l.flatMap (fun a => [f a, g a])).getD (2 * i + 1) none)) =
      l.map (fun a => Q a (f a) (g a)) := by
  intro l
  induction l with
  | nil => simp
  | cons a as ih =>
    have hres : (a :: as).flatMap (fun x => [f x, g x]) =
        f a :: g a :: as.flatMap (fun x => [f x, g x]) := by
      simp [List.flatMap_cons]
    have hshift : ∀ i : Nat,
        Q ((a :: as).getD (i + 1) d)
          (((a :: as).flatMap (fun x => [f x, g x])).getD (2 * (i + 1)) none)
          (((a :: as).flatMap (fun x => [f x, g x])).getD (2 * (i + 1) + 1)
            none)
        = Q (as.getD i d)
            ((as.flatMap (fun x => [f x, g x])).getD (2 * i) none)
            ((as.flatMap (fun x => [f x, g x])).getD (2 * i + 1) none) := by
      intro i
      have h1 : 2 * (i + 1) = 2 * i + 1 + 1 := by omega
      rw [hres, h1]
      simp [List.getD_cons_succ]
    rw [List.length_cons, List.range_succ_eq_map, List.map_cons, List.map_map]
    have hcongr : ((fun i =>
        Q ((a :: as).getD i d)
          (((a :: as).flatMap (fun x => [f x, g x])).getD (2 * i) none)
          (((a :: as).flatMap (fun x => [f x, g x])).getD (2 * i + 1) none)) ∘
        Nat.succ) = (fun i =>
        Q (as.getD i d)
          ((as.flatMap (fun x => [f x, g x])).getD (2 * i) none)
          ((as.flatMap (fun x => [f x, g x])).getD (2 * i + 1) none)) := by
      funext i
      simp only [Function.comp_apply, Nat.succ_eq_add_one]
      exact hshift i
    rw [hcongr, ih]
    have h0 : Q ((a :: as).getD 0 d)
        (((a :: as).flatMap (fun x => [f x, g x])).getD (2 * 0) none)
        (((a :: as).flatMap (fun x => [f x, g x])).getD (2 * 0 + 1) none) =
        Q a (f a) (g a) := by
      rw [hres]
      rfl
    rw [h0, List.map_cons]

/-- The collapsed per-key meaning of the standalone batched get: process the
looked-up metadata and payload values of one key. -/
def RedisConnector.fetchOne (alloc : Alloc) (st : Store) (k : String) :
    Option MemObj :=
  RedisConnector.processPair alloc
    (st.lookup (RedisConnector.getKeys k).1)
    (st.lookup (RedisConnector.getKeys k).2)

/-- The collapsed per-key meaning of the cluster batched get, over the
hash-tagged keys. -/
def RedisClusterConnector.fetchOne (alloc : Alloc) (st : Store) (k : String) :
    Option MemObj :=
  RedisConnector.processPair alloc
    (st.lookup (RedisClusterConnector.getKeysWithHashTag k).1)
    (st.lookup (RedisClusterConnector.getKeysWithHashTag k).2)

theorem processChunk_eq (alloc : Alloc) (st : Store) (chunk : List String) :
    RedisConnector.processChunk alloc st chunk =
      chunk.filterMap (RedisConnector.fetchOne alloc st) := by
  unfold RedisConnector.processChunk
  simp only [mget, List.map_flatMap, List.map_cons, List.map_nil]
  exact filterMap_pairs_positional
    (fun k => st.lookup (RedisConnector.getKeys k).1)
    (fun k => st.lookup (RedisConnector.getKeys k).2)
    (RedisConnector.processPair alloc) chunk

theorem batchedGet_eq_filterMap (alloc : Alloc) (C : Nat) (st : Store)
    (hC : 0 < C) :
    ∀ keys : List String, RedisConnector.batchedGet alloc C st keys =
      keys.filterMap (RedisConnector.fetchOne alloc st) := by
  intro keys
  generalize hl : keys.length = n
  induction n using Nat.strong_induction_on generalizing keys with
  | _ n ih =>
    rw [RedisConnector.batchedGet]
    by_cases hk : keys = []
    · simp [hk]
    · rw [if_neg hk, dif_pos hC, processChunk_eq]
      have hlt : (keys.drop C).length < n := by
        rw [← hl, List.length_drop]
        have : 0 < keys.length := List.length_pos.mpr hk
        omega
      rw [ih (keys.drop C).length hlt (keys.drop C) rfl,
        ← List.filterMap_append, List.take_append_drop]

/-- One step of `_group_keys_by_slot`: route the enumerated pair `p` into
the group of its slot, appending a new group when the slot is unseen. -/
def groupStep (slotFn : String → Nat) (gs : List (Nat × List (Nat × String)))
    (p : Nat × String) : List (Nat × List (Nat × String)) :=
  if gs.any (fun g => g.1 = slotFn p.2) then
    gs.map (fun g => if g.1 = slotFn p.2 then (g.1, g.2 ++ [p]) else g)
  else gs ++ [(slotFn p.2, [p])]

theorem groupBySlot_eq_foldl (slotFn : String → Nat) (ks : List String) :
    RedisClusterConnector.groupBySlot slotFn ks =
      ks.enum.foldl (groupStep slotFn) [] := rfl

theorem mem_flat_groupStep (f : String → Nat)
    (gs : List (Nat × List (Nat × String))) (p q : Nat × String)
    (h : q ∈ gs.flatMap (fun g => g.2) ∨ q = p) :
    q ∈ (groupStep f gs p).flatMap (fun g => g.2) := by
  unfold groupStep
  by_cases hany : gs.any (fun g => g.1 = f p.2) = true
  · rw [if_pos hany]
    rcases h with h | h
    · rcases List.mem_flatMap.mp h with ⟨g, hg, hq⟩
      apply List.mem_flatMap.mpr
      refine ⟨if g.1 = f p.2 then (g.1, g.2 ++ [p]) else g,
        List.mem_map_of_mem _ hg, ?_⟩
      by_cases hslot : g.1 = f p.2 <;> simp [hslot, hq]
    · rcases List.any_eq_true.mp hany with ⟨g, hg, hgs⟩
      apply List.mem_flatMap.mpr
      refine ⟨(g.1, g.2 ++ [p]), ?_, by simp [h]⟩
      apply List.mem_map.mpr
      exact ⟨g, hg, by simp [of_decide_eq_true hgs]⟩
  · rw [if_neg hany]
    rcases h with h | h
    · rcases List.mem_flatMap.mp h with ⟨g, hg, hq⟩
      exact List.mem_flatMap.mpr ⟨g, List.mem_append_left _ hg, hq⟩
    · exact List.mem_flatMap.mpr
        ⟨(f p.2, [p]), List.mem_append_right _ (by simp), by simp [h]⟩

theorem mem_flat_foldl_groupStep (f : String → Nat) :
    ∀ (l : List (Nat × String)) (gs : List (Nat × List (Nat × String)))
      (q : Nat × String),
      (q ∈ gs.flatMap (fun g => g.2) ∨ q ∈ l) →
      q ∈ (l.foldl (groupStep f) gs).flatMap (fun g => g.2) := by
  intro l
  induction l with
  | nil =>
    intro gs q h
    rcases h with h | h
    · simpa using h
    · simp at h
  | cons p ps ih =>
    intro gs q h
    rw [List.foldl_cons]
    apply ih
    rcases h with h | h
    · exact Or.inl (mem_flat_groupStep f gs p q (Or.inl h))
    · rcases List.mem_cons.mp h with h | h
      · exact Or.inl (mem_flat_groupStep f gs p q (Or.inr h))
      · exact Or.inr h

theorem groupBySlot_covers (f : String → Nat) (ks : List String) (i : Nat)
    (hi : i < ks.length) :
    i ∈ (RedisClusterConnector.groupBySlot f ks).flatMap
      (fun g => g.2.map Prod.fst) := by
  have hmem : (i, ks.getD i "") ∈ ks.enum := by
    rw [List.mem_enum_iff_getElem?]
    rw [List.getD_eq_getElem?_getD, List.getElem?_eq_getElem hi]
    rfl
  have h2 := mem_flat_foldl_groupStep f ks.enum [] (i, ks.getD i "")
    (Or.inr hmem)
  rw [groupBySlot_eq_foldl]
  rcases List.mem_flatMap.mp h2 with ⟨g, hg, hq⟩
  exact List.mem_flatMap.mpr ⟨g, hg, List.mem_map.mpr ⟨_, hq, rfl⟩⟩

theorem processSlotGroup_eq (alloc : Alloc) (st : Store) (keys : List String)
    (kl : List (Nat × String)) :
    RedisClusterConnector.processSlotGroup alloc st keys kl =
      kl.map (fun p =>
        (p.1, RedisClusterConnector.fetchOne alloc st (keys.getD p.1 ""))) := by
  unfold RedisClusterConnector.processSlotGroup
  simp only [mget, List.map_flatMap, List.map_cons, List.map_nil]
  exact map_pairs_positional
    (fun p => st.lookup
      (RedisClusterConnector.getKeysWithHashTag (keys.getD p.1 "")).1)
    (fun p => st.lookup
      (RedisClusterConnector.getKeysWithHashTag (keys.getD p.1 "")).2)
    (fun p x y => (p.1, RedisConnector.processPair alloc x y)) (0, "") kl

theorem foldl_assign_eq (exp : Nat → Option MemObj) :
    ∀ (pl : List (Nat × Option MemObj)) (acc : Nat → Option (Option MemObj)),
      (∀ p ∈ pl, p.2 = exp p.1) →
      pl.foldl (fun a p => fun j => if j = p.1 then some p.2 else a j) acc =
        fun j => if j ∈ pl.map Prod.fst then some (exp j) else acc j := by
  intro pl
  induction pl with
  | nil =>
    intro acc h
    funext j
    simp
  | cons p ps ih =>
    intro acc h
    rw [List.foldl_cons, ih _ (fun q hq => h q (List.mem_cons_of_mem _ hq))]
    funext j
    by_cases hj : j ∈ ps.map Prod.fst
    · simp [hj]
    · by_cases hji : j = p.1
      · have hp := h p (List.mem_cons_self p ps)
        simp [hj, hji, hp]
      · simp [hj, hji]

theorem foldl_groups_eq (alloc : Alloc) (st : Store) (keys : List String) :
    ∀ (groups : List (Nat × List (Nat × String)))
      (acc : Nat → Option (Option MemObj)),
      groups.foldl (fun acc g =>
        (RedisClusterConnector.processSlotGroup alloc st keys g.2).foldl
          (fun a p => fun j => if j = p.1 then some p.2 else a j) acc) acc =
      fun j => if j ∈ groups.flatMap (fun g => g.2.map Prod.fst) then
        some (RedisClusterConnector.fetchOne alloc st (keys.getD j ""))
      else acc j := by
  intro groups
  induction groups with
  | nil =>
    intro acc
    funext j
    simp
  | cons g gs ih =>
    intro acc
    rw [List.foldl_cons, processSlotGroup_eq,
      foldl_assign_eq
        (fun j => RedisClusterConnector.fetchOne alloc st (keys.getD j ""))
        _ _ (by intro q hq; rcases List.mem_map.mp hq with ⟨p, hp, rfl⟩; rfl),
      ih]
    funext j
    by_cases h1 : j ∈ gs.flatMap (fun g => g.2.map Prod.fst) <;>
      by_cases h2 : ∃ p ∈ g.2, p.1 = j <;>
      simp [List.flatMap_cons, List.mem_append, List.mem_map, List.map_map,
        Function.comp, h1, h2]

theorem range_filterMap_getD {β : Type} (F : String → Option β) :
    ∀ l : List String,
      (List.range l.length).filterMap (fun i => F (l.getD i "")) =
        l.filterMap F := by
  intro l
  induction l with
  | nil => simp
  | cons a as ih =>
    rw [List.length_cons, List.range_succ_eq_map, List.filterMap_cons,
      List.filterMap_map]
    have hcongr : ((fun i => F ((a :: as).getD i "")) ∘ Nat.succ) =
        (fun i => F (as.getD i "")) := by
      funext i
      simp [Function.comp, Nat.succ_eq_add_one, List.getD_cons_succ]
    rw [hcongr, ih, List.filterMap_cons]
    rfl

theorem clusterBatchedGet_eq_filterMap (alloc : Alloc)
    (slotFn : String → Nat) (st : Store) (keys : List String) :
    RedisClusterConnector.batchedGet alloc slotFn st keys =
      keys.filterMap (RedisClusterConnector.fetchOne alloc st) := by
  unfold RedisClusterConnector.batchedGet
  by_cases hk : keys = []
  · simp [hk]
  · rw [if_neg hk]
    simp only []
    rw [foldl_groups_eq]
    refine Eq.trans (List.filterMap_congr ?_)
      (range_filterMap_getD (RedisClusterConnector.fetchOne alloc st) keys)
    intro i hi
    have hiK : i < keys.length := by simpa [List.mem_range] using hi
    have hcov : i ∈ (RedisClusterConnector.groupBySlot slotFn
        (keys.map (fun k =>
          (RedisClusterConnector.getKeysWithHashTag k).1))).flatMap
        (fun g => g.2.map Prod.fst) :=
      groupBySlot_covers _ _ i (by simpa using hiK)
    simp only [hcov, if_true]
    cases RedisClusterConnector.fetchOne alloc st (keys.getD i "") <;> rfl

theorem processPair_none_kv (alloc : Alloc) (mdb : Option (List Nat)) :
    RedisConnector.processPair alloc mdb none = none := by
  rcases mdb with _ | mb
  · rfl
  · simp only [RedisConnector.processPair]
    rcases hd : RemoteMetadata.deserialize mb with e | md
    · simp [hd]
    · rcases ha : alloc md.shape md.dtype md.fmt with _ | buf <;> simp [ha]

/-! The claims. -/

/-- C2: the claim states that in every put of every topology variant the
payload write is issued before the metadata write.  The standalone and
cluster puts do pipeline the payload SET first (first two conjuncts), but
`RedisSentinelConnector.put` issues the metadata SET first and the payload
SET second, evaluated here at key "k" and a three-byte object: the code
contradicts the invariant stated in the spec and in the source's own
comment ("kv bytes needs to be set first to avoid race condition"). -/
theorem C2_put_write_order_evidence :
    (∀ k obj, RedisConnector.putCmds k obj =
      [Cmd.set (RedisConnector.getKeys k).2 obj.data,
       Cmd.set (RedisConnector.getKeys k).1 (metaOf obj).serialize]) ∧
    (∀ k obj, RedisClusterConnector.putCmds k obj =
      [Cmd.set (RedisClusterConnector.getKeysWithHashTag k).2 obj.data,
       Cmd.set (RedisClusterConnector.getKeysWithHashTag k).1
         (metaOf obj).serialize]) ∧
    RedisSentinelConnector.putCmds "k" ⟨[1, 2, 3], [3], 0, 0⟩ =
      [Cmd.set "kmetadata" [3, 0, 0, 1, 3],
       Cmd.set "kkv_bytes" [1, 2, 3]] :=
  ⟨fun _ _ => rfl, fun _ _ => rfl, by decide⟩

/-- C4 as stated is false: the replicated (sentinel) variant derives its
storage keys by direct concatenation without the ":" separator, so for the
cache key "a" its metadata key is "ametadata", not "a:metadata", and a
metadata entry stored under "a:metadata" is invisible to its exists. -/
theorem C4_counterexample :
    RedisSentinelConnector.metaKey "a" = "ametadata" ∧
    RedisSentinelConnector.metaKey "a" ≠ "a" ++ ":metadata" ∧
    RedisSentinelConnector.kvKey "a" ≠ "a" ++ ":kv_bytes" ∧
    RedisSentinelConnector.existsQ [("a" ++ ":metadata", [2, 0, 0, 1, 2])] "a"
      = false := by
  decide

/-- C4 amended: the standalone variant derives `key ++ ":metadata"` and
`key ++ ":kv_bytes"` and its operations use exactly those keys; the
replicated (sentinel) variant derives `key ++ "metadata"` and
`key ++ "kv_bytes"` (no colon separator) and its operations use exactly
those. -/
theorem C4_amended_key_schema (k : String) (st : Store) (obj : MemObj) :
    (RedisConnector.getKeys k).1 = k ++ ":metadata" ∧
    (RedisConnector.getKeys k).2 = k ++ ":kv_bytes" ∧
    RedisConnector.existsQ st k = (st.lookup (k ++ ":metadata")).isSome ∧
    RedisConnector.putCmds k obj =
      [Cmd.set (k ++ ":kv_bytes") obj.data,
       Cmd.set (k ++ ":metadata") (metaOf obj).serialize] ∧
    RedisSentinelConnector.metaKey k = k ++ "metadata" ∧
    RedisSentinelConnector.kvKey k = k ++ "kv_bytes" ∧
    RedisSentinelConnector.existsQ st k = (st.lookup (k ++ "metadata")).isSome ∧
    RedisSentinelConnector.putCmds k obj =
      [Cmd.set (k ++ "metadata") (metaOf obj).serialize,
       Cmd.set (k ++ "kv_bytes") obj.data] :=
  ⟨rfl, rfl, rfl, rfl, rfl, rfl, rfl, rfl⟩

/-- C8: in sharded mode both derived keys carry the identical
brace-delimited hash tag, so for every deterministic key-to-shard hash `h`
the metadata key and the payload key of a cache key map to the same
shard. -/
theorem C8_shard_colocation (h : String → Nat) (k : String) :
    (RedisClusterConnector.getKeysWithHashTag k).1 =
      "\x7b" ++ k ++ "\x7d:metadata" ∧
    (RedisClusterConnector.getKeysWithHashTag k).2 =
      "\x7b" ++ k ++ "\x7d:kv_bytes" ∧
    shardOf h (RedisClusterConnector.getKeysWithHashTag k).1 =
      shardOf h (RedisClusterConnector.getKeysWithHashTag k).2 := by
  refine ⟨rfl, rfl, ?_⟩
  have e1 : (RedisClusterConnector.getKeysWithHashTag k).1 =
      ⟨'{' :: (k.data ++ '}' :: (":metadata".data))⟩ := by
    apply String.ext
    simp [RedisClusterConnector.getKeysWithHashTag, String.data_append]
  have e2 : (RedisClusterConnector.getKeysWithHashTag k).2 =
      ⟨'{' :: (k.data ++ '}' :: (":kv_bytes".data))⟩ := by
    apply String.ext
    simp [RedisClusterConnector.getKeysWithHashTag, String.data_append]
  rw [shardOf, shardOf, e1, e2, hashInput_tagged, hashInput_tagged]

/-- C9: both executor-dispatching connectors submit existence checks at
PEEK, the prefetch batched get at PREFETCH, the single get at GET and the
puts at PUT; the priority values rank in that order; the executor pops a
minimal (priority, submission order) job among the queued jobs, so an
exists job submitted after a still-queued put job is popped first. -/
theorem C9_priority_ranking :
    (RedisConnector.submitPriority .existsOp = .PEEK ∧
     RedisConnector.submitPriority .batchedAsyncContains = .PEEK ∧
     RedisConnector.submitPriority .batchedGetNonBlocking = .PREFETCH ∧
     RedisConnector.submitPriority .getOne = .GET ∧
     RedisConnector.submitPriority .putOne = .PUT ∧
     RedisConnector.submitPriority .batchedPut = .PUT ∧
     RedisClusterConnector.submitPriority = RedisConnector.submitPriority) ∧
    (Priorities.PEEK.val < Priorities.PREFETCH.val ∧
     Priorities.PREFETCH.val < Priorities.GET.val ∧
     Priorities.GET.val < Priorities.PUT.val) ∧
    (∀ (q : List Job) (j : Job), popNext q = some j →
      ∀ j2 ∈ q, jobBefore j j2 = true) ∧
    (∀ s1 s2 : Nat,
      popNext [⟨Priorities.PUT.val, s1⟩, ⟨Priorities.PEEK.val, s2⟩] =
        some ⟨Priorities.PEEK.val, s2⟩) := by
  refine ⟨⟨rfl, rfl, rfl, rfl, rfl, rfl, ?_⟩, ⟨by decide, by decide, by decide⟩,
    popNext_min, ?_⟩
  · funext op; cases op <;> rfl
  · intro s1 s2
    simp [popNext, jobBefore, Priorities.val]

/-- C9 witness: on the concrete queue holding a put job submitted at time 0
and an exists job submitted at time 1, the executor pops the exists job,
and it is minimal with respect to both queued jobs. -/
theorem C9_priority_ranking_witness :
    popNext [⟨Priorities.PUT.val, 0⟩, ⟨Priorities.PEEK.val, 1⟩] =
      some ⟨Priorities.PEEK.val, 1⟩ ∧
    jobBefore ⟨Priorities.PEEK.val, 1⟩ ⟨Priorities.PUT.val, 0⟩ = true :=
  ⟨by decide,
   C9_priority_ranking.2.2.1
     [⟨Priorities.PUT.val, 0⟩, ⟨Priorities.PEEK.val, 1⟩]
     ⟨Priorities.PEEK.val, 1⟩ (by decide)
     ⟨Priorities.PUT.val, 0⟩ (by simp)⟩

/-- C10: the standalone batched put over key and object lists of different
lengths issues exactly the writes of the first `min` pairs — the command
trace coincides with the trace for the truncated lists and has two writes
per surviving pair — and, being a total function of the two lists, reports
no failure for the surplus elements. -/
theorem C10_batched_put_zip_truncation (keys : List String)
    (objs : List MemObj) :
    RedisConnector.batchedPutCmds keys objs =
      RedisConnector.batchedPutCmds (keys.take (min keys.length objs.length))
        (objs.take (min keys.length objs.length)) ∧
    (RedisConnector.batchedPutCmds keys objs).length =
      2 * min keys.length objs.length := by
  constructor
  · unfold RedisConnector.batchedPutCmds
    rw [← zip_take_min]
  · unfold RedisConnector.batchedPutCmds
    rw [length_flatMap_pairs (keys.zip objs)
      (fun p => Cmd.set (RedisConnector.getKeys p.1).2 p.2.data)
      (fun p => Cmd.set (RedisConnector.getKeys p.1).1 (metaOf p.2).serialize)]
    rw [List.length_zip]

/-- C1: in each topology variant, a get that runs after a completed put of
object `v` under key `k`, on the resulting store, returns an object whose
first `len(v)` bytes are `v`'s bytes — provided the local allocator returns
a buffer (of at least the payload's size) for `v`'s shape, dtype and
format. -/
theorem C1_roundtrip (alloc : Alloc) (st : Store) (k : String) (v : MemObj)
    (buf : List Nat) (halloc : alloc v.shape v.dtype v.fmt = some buf)
    (hlen : v.data.length ≤ buf.length) :
    (∃ w cs, RedisConnector.getOp alloc
        (applyCmds st (RedisConnector.putCmds k v)) k = .ok (some w, cs) ∧
      w.data.take v.data.length = v.data) ∧
    (∃ w cs, RedisSentinelConnector.getOp alloc
        (applyCmds st (RedisSentinelConnector.putCmds k v)) k =
          .ok (some w, cs) ∧
      w.data.take v.data.length = v.data) ∧
    (∃ w cs, RedisClusterConnector.getOp alloc
        (applyCmds st (RedisClusterConnector.putCmds k v)) k =
          .ok (some w, cs) ∧
      w.data.take v.data.length = v.data) := by
  have hcopy : copyInto buf v.data.length v.data =
      some (v.data ++ buf.drop v.data.length) := by
    simp [copyInto, Nat.min_eq_left hlen]
  refine ⟨?_, ?_, ?_⟩
  · have hm : Store.lookup (applyCmds st (RedisConnector.putCmds k v))
        (RedisConnector.getKeys k).1 = some (metaOf v).serialize := by
      simp [RedisConnector.putCmds, applyCmds, applyCmd,
        Store.lookup_cons_self]
    have hk : Store.lookup (applyCmds st (RedisConnector.putCmds k v))
        (RedisConnector.getKeys k).2 = some v.data := by
      simp [RedisConnector.putCmds, RedisConnector.getKeys, applyCmds,
        applyCmd]
      rw [Store.lookup_cons_ne _ _ (std_keys_ne k),
        Store.lookup_cons_self]
    refine ⟨⟨v.data ++ buf.drop v.data.length, v.shape, v.dtype, v.fmt⟩, [],
      ?_, List.take_left _ _⟩
    simp [RedisConnector.getOp, mget, hm, hk,
      RemoteMetadata.deserialize_serialize, metaOf, halloc, hcopy]
  · have hm : Store.lookup (applyCmds st (RedisSentinelConnector.putCmds k v))
        (RedisSentinelConnector.metaKey k) = some (metaOf v).serialize := by
      simp [RedisSentinelConnector.putCmds, RedisSentinelConnector.metaKey,
        RedisSentinelConnector.kvKey, applyCmds, applyCmd]
      rw [Store.lookup_cons_ne _ _ (Ne.symm (sent_keys_ne k)),
        Store.lookup_cons_self]
    have hk : Store.lookup (applyCmds st (RedisSentinelConnector.putCmds k v))
        (RedisSentinelConnector.kvKey k) = some v.data := by
      simp [RedisSentinelConnector.putCmds, applyCmds, applyCmd,
        Store.lookup_cons_self]
    refine ⟨⟨v.data ++ buf.drop v.data.length, v.shape, v.dtype, v.fmt⟩, [],
      ?_, List.take_left _ _⟩
    simp [RedisSentinelConnector.getOp, hm, hk,
      RemoteMetadata.deserialize_serialize, metaOf, halloc, hcopy]
  · have hm : Store.lookup (applyCmds st (RedisClusterConnector.putCmds k v))
        (RedisClusterConnector.getKeysWithHashTag k).1 =
          some (metaOf v).serialize := by
      simp [RedisClusterConnector.putCmds, applyCmds, applyCmd,
        Store.lookup_cons_self]
    have hk : Store.lookup (applyCmds st (RedisClusterConnector.putCmds k v))
        (RedisClusterConnector.getKeysWithHashTag k).2 = some v.data := by
      simp [RedisClusterConnector.putCmds,
        RedisClusterConnector.getKeysWithHashTag, applyCmds, applyCmd]
      rw [Store.lookup_cons_ne _ _ (cluster_keys_ne k),
        Store.lookup_cons_self]
    refine ⟨⟨v.data ++ buf.drop v.data.length, v.shape, v.dtype, v.fmt⟩, [],
      ?_, List.take_left _ _⟩
    simp [RedisClusterConnector.getOp, mget, hm, hk,
      RemoteMetadata.deserialize_serialize, metaOf, halloc, hcopy]

/-- An allocator that always hands out a fixed four-byte buffer, used to
instantiate hypothesis-bearing theorems at concrete inputs. -/
def allocFixed : Alloc := fun _ _ _ => some [0, 0, 0, 0]

/-- C1 witness: the round trip at key "k" and the two-byte object
`[1, 2]` under the fixed allocator. -/
theorem C1_roundtrip_witness :
    allocFixed [2] 0 0 = some [0, 0, 0, 0] ∧
    ([1, 2] : List Nat).length ≤ ([0, 0, 0, 0] : List Nat).length ∧
    ((∃ w cs, RedisConnector.getOp allocFixed
        (applyCmds [] (RedisConnector.putCmds "k" ⟨[1, 2], [2], 0, 0⟩)) "k" =
          .ok (some w, cs) ∧
      w.data.take 2 = [1, 2]) ∧
    (∃ w cs, RedisSentinelConnector.getOp allocFixed
        (applyCmds [] (RedisSentinelConnector.putCmds "k" ⟨[1, 2], [2], 0, 0⟩))
          "k" = .ok (some w, cs) ∧
      w.data.take 2 = [1, 2]) ∧
    (∃ w cs, RedisClusterConnector.getOp allocFixed
        (applyCmds [] (RedisClusterConnector.putCmds "k" ⟨[1, 2], [2], 0, 0⟩))
          "k" = .ok (some w, cs) ∧
      w.data.take 2 = [1, 2])) :=
  ⟨rfl, by decide,
   C1_roundtrip allocFixed [] "k" ⟨[1, 2], [2], 0, 0⟩ [0, 0, 0, 0] rfl
     (by decide)⟩

/-- C3 as stated is false: a single-key get whose stored metadata bytes are
malformed (here the one-byte value `[9]`) propagates the deserialization
error to the caller in both the standalone and the cluster connector,
because `RemoteMetadata.deserialize` runs outside the guarded region of
`_get`. -/
theorem C3_counterexample :
    RedisConnector.getOp allocFixed [("k:metadata", [9])] "k" = .error () ∧
    RedisClusterConnector.getOp allocFixed [("\x7bk\x7d:metadata", [9])] "k" =
      .error () :=
  ⟨rfl, rfl⟩

/-- C3 amended: in the standalone and cluster single-key gets, every
internal failure other than metadata deserialization (allocation failure,
absent payload, byte-copy failure) is absorbed into an absent result, and
the call raises precisely when the metadata key holds bytes the codec
cannot deserialize. -/
theorem C3_amended_error_characterization (alloc : Alloc) (st : Store)
    (k : String) :
    (RedisConnector.getOp alloc st k = .error () ↔
      ∃ mb, st.lookup (k ++ ":metadata") = some mb ∧
        RemoteMetadata.deserialize mb = .error ()) ∧
    (RedisClusterConnector.getOp alloc st k = .error () ↔
      ∃ mb, st.lookup ("\x7b" ++ k ++ "\x7d:metadata") = some mb ∧
        RemoteMetadata.deserialize mb = .error ()) := by
  constructor
  · unfold RedisConnector.getOp
    simp only [mget, RedisConnector.getKeys, List.map_cons, List.map_nil,
      List.getD_cons_zero, List.getD_cons_succ]
    rcases hmb : st.lookup (k ++ ":metadata") with _ | mb
    · simp
    · rcases hd : RemoteMetadata.deserialize mb with e | md
      · cases e
        simp [hd]
      · simp only [hd]
        rcases ha : alloc md.shape md.dtype md.fmt with _ | buf
        · simp [hd]
        · simp only []
          rcases hkv : st.lookup (k ++ ":kv_bytes") with _ | kv
          · simp [hd]
          · rcases hc : copyInto buf md.length kv with _ | filled <;>
              simp [hd, hc]
  · unfold RedisClusterConnector.getOp
    simp only [mget, RedisClusterConnector.getKeysWithHashTag, List.map_cons,
      List.map_nil, List.getD_cons_zero, List.getD_cons_succ]
    rcases hmb : st.lookup ("\x7b" ++ k ++ "\x7d:metadata") with _ | mb
    · simp
    · rcases hd : RemoteMetadata.deserialize mb with e | md
      · cases e
        simp [hd]
      · simp only [hd]
        rcases ha : alloc md.shape md.dtype md.fmt with _ | buf
        · simp [hd]
        · simp only []
          rcases hkv : st.lookup ("\x7b" ++ k ++ "\x7d:kv_bytes") with _ | kv
          · simp [hd]
          · rcases hc : copyInto buf md.length kv with _ | filled <;>
              simp [hd, hc]

/-- C3 amended witness: on a store whose metadata key holds the empty byte
string, the standalone get raises, by the backward direction of the
characterization. -/
theorem C3_amended_error_characterization_witness :
    RedisConnector.getOp allocFixed [("k:metadata", [])] "k" = .error () :=
  (C3_amended_error_characterization allocFixed [("k:metadata", [])] "k").1.mpr
    ⟨[], by decide, rfl⟩

/-- C7 as stated is false: in the replicated (sentinel) variant, a get that
finds the metadata present (a well-formed five-byte envelope) but the
payload absent issues a DELETE of the metadata key — the read-repair path
of the source — after which exists on the same key returns false. -/
theorem C7_counterexample :
    RedisSentinelConnector.getOp allocFixed
        [("ametadata", [2, 0, 0, 1, 2])] "a" =
      .ok (none, [Cmd.del "ametadata"]) ∧
    RedisSentinelConnector.existsQ
        (applyCmds [("ametadata", [2, 0, 0, 1, 2])] [Cmd.del "ametadata"]) "a"
      = false :=
  ⟨rfl, rfl⟩

/-- C7 amended: with metadata present, payload absent and the allocation
succeeding, the standalone and cluster gets return absent, issue no write
or delete, and leave exists true; the replicated (sentinel) get also
returns absent but additionally deletes the metadata key, so exists
afterwards is false. -/
theorem C7_amended_missing_payload (alloc : Alloc) (st : Store) (k : String)
    (md : RemoteMetadata) (buf : List Nat)
    (hstd_m : st.lookup (k ++ ":metadata") = some md.serialize)
    (hstd_kv : st.lookup (k ++ ":kv_bytes") = none)
    (hcl_m : st.lookup ("\x7b" ++ k ++ "\x7d:metadata") = some md.serialize)
    (hcl_kv : st.lookup ("\x7b" ++ k ++ "\x7d:kv_bytes") = none)
    (hse_m : st.lookup (k ++ "metadata") = some md.serialize)
    (hse_kv : st.lookup (k ++ "kv_bytes") = none)
    (halloc : alloc md.shape md.dtype md.fmt = some buf) :
    RedisConnector.getOp alloc st k = .ok (none, []) ∧
    RedisConnector.existsQ st k = true ∧
    RedisClusterConnector.getOp alloc st k = .ok (none, []) ∧
    RedisClusterConnector.existsQ st k = true ∧
    RedisSentinelConnector.getOp alloc st k =
      .ok (none, [Cmd.del (k ++ "metadata")]) ∧
    RedisSentinelConnector.existsQ
      (applyCmds st [Cmd.del (k ++ "metadata")]) k = false := by
  refine ⟨?_, ?_, ?_, ?_, ?_, ?_⟩
  · simp [RedisConnector.getOp, mget, RedisConnector.getKeys, hstd_m, hstd_kv,
      RemoteMetadata.deserialize_serialize, halloc]
  · simp [RedisConnector.existsQ, RedisConnector.getKeys, hstd_m]
  · simp [RedisClusterConnector.getOp, mget,
      RedisClusterConnector.getKeysWithHashTag, hcl_m, hcl_kv,
      RemoteMetadata.deserialize_serialize, halloc]
  · simp [RedisClusterConnector.existsQ,
      RedisClusterConnector.getKeysWithHashTag, hcl_m]
  · simp [RedisSentinelConnector.getOp, RedisSentinelConnector.metaKey,
      RedisSentinelConnector.kvKey, hse_m, hse_kv,
      RemoteMetadata.deserialize_serialize, halloc]
  · have hdel := Store.lookup_del_self st (k ++ "metadata")
    simp only [ne_eq, decide_not] at hdel
    simp [RedisSentinelConnector.existsQ, RedisSentinelConnector.metaKey,
      applyCmds, applyCmd, hdel]

/-- A store holding only the three variants' metadata keys for the cache
key "k" (payload keys absent), used to instantiate C7's amended theorem. -/
def metaOnlyStore : Store :=
  [("k:metadata", [2, 0, 0, 1, 2]),
   ("\x7bk\x7d:metadata", [2, 0, 0, 1, 2]),
   ("kmetadata", [2, 0, 0, 1, 2])]

/-- C7 amended witness: the missing-payload behavior at the concrete key
"k" over `metaOnlyStore` under the fixed allocator. -/
theorem C7_amended_missing_payload_witness :
    metaOnlyStore.lookup ("k" ++ ":metadata") =
      some (RemoteMetadata.serialize ⟨2, [2], 0, 0⟩) ∧
    metaOnlyStore.lookup ("k" ++ ":kv_bytes") = none ∧
    metaOnlyStore.lookup ("\x7b" ++ "k" ++ "\x7d:metadata") =
      some (RemoteMetadata.serialize ⟨2, [2], 0, 0⟩) ∧
    metaOnlyStore.lookup ("\x7b" ++ "k" ++ "\x7d:kv_bytes") = none ∧
    metaOnlyStore.lookup ("k" ++ "metadata") =
      some (RemoteMetadata.serialize ⟨2, [2], 0, 0⟩) ∧
    metaOnlyStore.lookup ("k" ++ "kv_bytes") = none ∧
    allocFixed [2] 0 0 = some [0, 0, 0, 0] ∧
    (RedisConnector.getOp allocFixed metaOnlyStore "k" = .ok (none, []) ∧
     RedisConnector.existsQ metaOnlyStore "k" = true ∧
     RedisClusterConnector.getOp allocFixed metaOnlyStore "k" =
       .ok (none, []) ∧
     RedisClusterConnector.existsQ metaOnlyStore "k" = true ∧
     RedisSentinelConnector.getOp allocFixed metaOnlyStore "k" =
       .ok (none, [Cmd.del ("k" ++ "metadata")]) ∧
     RedisSentinelConnector.existsQ
       (applyCmds metaOnlyStore [Cmd.del ("k" ++ "metadata")]) "k" = false) :=
  ⟨by decide, by decide, by decide, by decide, by decide, by decide, rfl,
   C7_amended_missing_payload allocFixed metaOnlyStore "k" ⟨2, [2], 0, 0⟩
     [0, 0, 0, 0] (by decide) (by decide) (by decide) (by decide) (by decide)
     (by decide) rfl⟩

/-- C5: both batched gets equal, as lists, the in-order filter-map of the
per-key fetch over the input keys — so surviving keys keep their relative
input order and exactly the keys whose per-key processing succeeds
contribute an object; a key with absent metadata or absent payload
contributes nothing (last two conjuncts).  The standalone connector needs a
positive chunk size (its default is 256). -/
theorem C5_batched_get_order_preservation (alloc : Alloc) (st : Store)
    (keys : List String) (slotFn : String → Nat) (C : Nat) (hC : 0 < C) :
    RedisConnector.batchedGet alloc C st keys =
      keys.filterMap (RedisConnector.fetchOne alloc st) ∧
    RedisClusterConnector.batchedGet alloc slotFn st keys =
      keys.filterMap (RedisClusterConnector.fetchOne alloc st) ∧
    (∀ kvb, RedisConnector.processPair alloc none kvb = none) ∧
    (∀ mdb, RedisConnector.processPair alloc mdb none = none) :=
  ⟨batchedGet_eq_filterMap alloc C st hC keys,
   clusterBatchedGet_eq_filterMap alloc slotFn st keys,
   fun _ => rfl,
   processPair_none_kv alloc⟩

/-- C5 witness: the order-preservation shape at chunk size 1 over the
two-key list `["a", "b"]` on the empty store. -/
theorem C5_batched_get_order_preservation_witness :
    (0 : Nat) < 1 ∧
    (RedisConnector.batchedGet allocFixed 1 [] ["a", "b"] =
      (["a", "b"] : List String).filterMap
        (RedisConnector.fetchOne allocFixed []) ∧
     RedisClusterConnector.batchedGet allocFixed (fun _ => 0) [] ["a", "b"] =
      (["a", "b"] : List String).filterMap
        (RedisClusterConnector.fetchOne allocFixed []) ∧
     (∀ kvb, RedisConnector.processPair allocFixed none kvb = none) ∧
     (∀ mdb, RedisConnector.processPair allocFixed mdb none = none)) :=
  ⟨by decide,
   C5_batched_get_order_preservation allocFixed [] ["a", "b"] (fun _ => 0) 1
     (by decide)⟩

/-- Definition following the spec's words for the refinement claim C6: one
ungrouped fetch over all N keys — a single MGET over every (metadata,
payload) key pair of the whole list, consumed positionally (spec sections
4.3 and 8, "one ungrouped fetch"). -/
def specUnchunkedFetch (alloc : Alloc) (st : Store) (keys : List String) :
    List MemObj :=
  let allKeys := keys.flatMap (fun k =>
    [(RedisConnector.getKeys k).1, (RedisConnector.getKeys k).2])
  let res := mget st allKeys
  (List.range keys.length).filterMap (fun i =>
    RedisConnector.processPair alloc (res.getD (2 * i) none)
      (res.getD (2 * i + 1) none))

/-- C6: over an unchanged store, the standalone batched get with any
positive chunk size returns the same object sequence as the single
unchunked fetch over the whole key list (in particular for every chunk size
C with 0 < C < N). -/
theorem C6_chunk_transparency (alloc : Alloc) (st : Store)
    (keys : List String) (C : Nat) (hC : 0 < C) :
    RedisConnector.batchedGet alloc C st keys =
      specUnchunkedFetch alloc st keys := by
  rw [batchedGet_eq_filterMap alloc C st hC keys]
  have hspec : specUnchunkedFetch alloc st keys =
      RedisConnector.processChunk alloc st keys := rfl
  rw [hspec, processChunk_eq]

/-- C6 witness: chunk size 1 over the two-key list `["a", "b"]` (so the
chunk size is smaller than the key count) on the empty store. -/
theorem C6_chunk_transparency_witness :
    (0 : Nat) < 1 ∧
    RedisConnector.batchedGet allocFixed 1 [] ["a", "b"] =
      specUnchunkedFetch allocFixed [] ["a", "b"] :=
  ⟨by decide,
   C6_chunk_transparency allocFixed [] ["a", "b"] 1 (by decide)⟩

end LMCacheRedis
